import Mathlib

/-!
Verification of the Jmac Visualizer backend (scanner, deletion, disk info).

The development shallowly embeds the Python modules `backend/scanner.py`,
`backend/routes.py` and `backend/disk_info.py`.  External effects (the
filesystem, the `du` and `osascript` subprocesses, `/bin/rm`, the clock)
are modelled as oracle data carried by the input values:

* `FSTree` models one filesystem entry as `os.scandir` presents it.  Each
  node carries the answers the external tools would give for its path
  (`du` for `du -sk`, `finder` for the Finder AppleScript query), its
  `stat` result (`none` when `entry.stat(follow_symlinks=False)` raises),
  and for a directory the listing (`none` when `os.scandir` raises).
* Machine integers are modelled as `Nat`/`Int` (Python integers are
  unbounded, and all sizes are non-negative).
* The thread pool used at level 0 only changes the order in which children
  are collected; the code re-sorts children by size, so the embedding uses
  the sequential listing order throughout.
* Clock values are modelled as `Int` seconds.
-/

namespace JmacViz

/-! ### posixpath helpers (`os.path.basename/dirname/join/splitext`) -/

/-- Characters of `os.path.basename`: the suffix after the last slash. -/
def basenameL (l : List Char) : List Char :=
  (l.reverse.takeWhile (fun c => c ≠ '/')).reverse

/-- Model of `os.path.basename`. -/
def basename (s : String) : String :=
  ⟨basenameL s.data⟩

/-- Model of `os.path.basename(path) or path` (used for a scan root's name). -/
def basenameOr (s : String) : String :=
  if basename s = "" then s else basename s

/-- Model of `os.path.dirname`: everything up to the last slash, with
trailing slashes stripped unless the head is all slashes. -/
def dirname (s : String) : String :=
  let head := (s.data.reverse.dropWhile (fun c => c ≠ '/')).reverse
  if head.all (fun c => c = '/') then ⟨head⟩
  else ⟨(head.reverse.dropWhile (fun c => c = '/')).reverse⟩

/-- Model of `posixpath.join(a, b)` for a single component `b`. -/
def joinPath (a b : String) : String :=
  if b.data.head? = some ('/') then b
  else if a = "" then b
  else if a.data.getLast? = some ('/') then a ++ b
  else a ++ "/" ++ b

/-- Index (from the start) of the last occurrence of `c`, `-1` if absent,
mirroring Python's `str.rfind`. -/
def lastIndexOfC (c : Char) (l : List Char) : Int :=
  match l.reverse.findIdx? (fun x => x = c) with
  | none => -1
  | some i => (l.length : Int) - 1 - (i : Int)

/-- Characters of `posixpath.splitext`: split at the last dot after the
last slash, provided some character strictly between them is not a dot. -/
def splitextL (p : List Char) : List Char × List Char :=
  let sepIdx := lastIndexOfC ('/') p
  let dotIdx := lastIndexOfC ('.') p
  if sepIdx < dotIdx then
    if ((p.take dotIdx.toNat).drop (sepIdx + 1).toNat).any (fun c => c ≠ '.') then
      (p.take dotIdx.toNat, p.drop dotIdx.toNat)
    else (p, [])
  else (p, [])

/-- Model of `os.path.splitext`. -/
def splitext (s : String) : String × String :=
  let r := splitextL s.data
  (⟨r.1⟩, ⟨r.2⟩)

/-- Model of `os.path.splitext(name)[1].lower() or ".none"`, the extension
stored on file nodes by `_scan_dir_entry`. -/
def extOf (name : String) : String :=
  let e := (splitext name).2.toLower
  if e = "" then ".none" else e

/-! ### Stable descending sort (Python `sorted(key=size, reverse=True)`)

Python's sort is stable; with `reverse=True` elements of equal key keep
their original relative order.  Insertion sort that inserts an element
before the first strictly-smaller key reproduces this. -/

/-- Insert `x` before the first element of strictly smaller key. -/
def insertByDesc (f : α → Nat) (x : α) : List α → List α
  | [] => [x]
  | y :: ys => if f y ≤ f x then x :: y :: ys else y :: insertByDesc f x ys

/-- Stable sort, descending by `f`. -/
def sortByDesc (f : α → Nat) : List α → List α
  | [] => []
  | x :: xs => insertByDesc f x (sortByDesc f xs)

theorem insertByDesc_perm (f : α → Nat) (x : α) (l : List α) :
    List.Perm (insertByDesc f x l) (x :: l) := by
  induction l with
  | nil => simp [insertByDesc]
  | cons y ys ih =>
      simp only [insertByDesc]
      by_cases h : f y ≤ f x
      · simp [h]
      · simp only [h, if_false]
        exact (ih.cons y).trans (List.Perm.swap x y ys)

theorem sortByDesc_perm (f : α → Nat) (l : List α) :
    List.Perm (sortByDesc f l) l := by
  induction l with
  | nil => simp [sortByDesc]
  | cons x xs ih =>
      exact (insertByDesc_perm f x (sortByDesc f xs)).trans (ih.cons x)

theorem mem_of_mem_sortByDesc {f : α → Nat} {x : α} {l : List α}
    (h : x ∈ sortByDesc f l) : x ∈ l :=
  (sortByDesc_perm f l).mem_iff.mp h

theorem sortByDesc_sorted (f : α → Nat) (l : List α) :
    (sortByDesc f l).Pairwise (fun a b => f b ≤ f a) := by
  induction l with
  | nil => simp [sortByDesc]
  | cons x xs ih =>
      simp only [sortByDesc]
      generalize hs : sortByDesc f xs = s at ih
      clear hs
      induction s with
      | nil => simp [insertByDesc]
      | cons y ys ihs =>
          rcases List.pairwise_cons.mp ih with ⟨hy, hys⟩
          simp only [insertByDesc]
          by_cases h : f y ≤ f x
          · rw [if_pos h]
            refine List.pairwise_cons.mpr ⟨?_, ih⟩
            intro b hb
            rcases List.mem_cons.mp hb with rfl | hb
            · exact h
            · exact le_trans (hy _ hb) h
          · rw [if_neg h]
            refine List.pairwise_cons.mpr ⟨?_, ihs hys⟩
            intro b hb
            rcases List.mem_cons.mp ((insertByDesc_perm f x ys).mem_iff.mp hb) with rfl | hb
            · omega
            · exact hy _ hb

/-! ### Scan result nodes (the dicts built by `scanner.py`)

A Python scan node is a dict; keys vary by node type.  `children` and
`hasChildren` are `Option`s because `_scan` later reads `c.get("children")`,
which distinguishes a missing key (`none`) from an empty list (`some []`).
The `ntype` field holds the dict's `"type"` value verbatim
(`"directory"`, `"file"`, `"protected"` or `"other"`). -/

inductive ScanNode where
  | mk (name path : String) (size : Nat) (ntype : String) (ext : Option String)
      (children : Option (List ScanNode)) (hasChildren : Option Bool)

def ScanNode.name : ScanNode → String
  | .mk n _ _ _ _ _ _ => n

def ScanNode.path : ScanNode → String
  | .mk _ p _ _ _ _ _ => p

def ScanNode.size : ScanNode → Nat
  | .mk _ _ s _ _ _ _ => s

def ScanNode.ntype : ScanNode → String
  | .mk _ _ _ t _ _ _ => t

def ScanNode.ext : ScanNode → Option String
  | .mk _ _ _ _ e _ _ => e

def ScanNode.children : ScanNode → Option (List ScanNode)
  | .mk _ _ _ _ _ c _ => c

def ScanNode.hasChildren : ScanNode → Option Bool
  | .mk _ _ _ _ _ _ h => h

/-- Sum of the `size` fields, as in `sum(c["size"] for c in children)`. -/
def sumSizes (l : List ScanNode) : Nat :=
  (l.map ScanNode.size).sum

theorem sumSizes_append (a b : List ScanNode) :
    sumSizes (a ++ b) = sumSizes a + sumSizes b := by
  simp [sumSizes]

theorem sumSizes_take_drop (k : Nat) (l : List ScanNode) :
    sumSizes (l.take k) + sumSizes (l.drop k) = sumSizes l := by
  rw [← sumSizes_append, List.take_append_drop]

theorem sumSizes_perm {a b : List ScanNode} (h : List.Perm a b) :
    sumSizes a = sumSizes b :=
  (h.map ScanNode.size).sum_eq

/-! ### Filesystem model

`EKind` is how a `DirEntry` answers `is_file(follow_symlinks=False)`,
`is_dir(follow_symlinks=False)`, `is_symlink()`: exactly one of file,
dir, symlink holds, anything else (socket, fifo, ...) is `special`. -/

inductive EKind where
  | file | symlink | dir | special
deriving DecidableEq

/-- Stat data and oracle answers for one filesystem entry.  `stat` is
`some blocks` (`st_blocks`) when `entry.stat(follow_symlinks=False)`
succeeds, `none` when it raises.  `du` and `finder` are the byte counts
`du_size` and `get_finder_size` would return for this entry's path. -/
structure EntryMeta where
  name : String
  stat : Option Nat
  kind : EKind
  du : Nat
  finder : Nat
deriving DecidableEq

/-- One filesystem entry together with its directory listing: `none`
when `os.scandir` on it raises `PermissionError`/`OSError`, `some es`
when it lists `es` (relevant only for `kind = dir`). -/
inductive FSTree where
  | mk (meta : EntryMeta) (listing : Option (List FSTree))

def FSTree.meta : FSTree → EntryMeta
  | .mk m _ => m

def FSTree.listing : FSTree → Option (List FSTree)
  | .mk _ l => l

/-- Names in `config.SKIP_NAMES`. -/
def SKIP_NAMES : List String := [".DS_Store", ".localized"]

/-- Names in `scanner.VIP_FOLDERS`. -/
def VIP_FOLDERS : List String :=
  ["Messages", "Safari", "Mail", "Photos Library.photoslibrary"]

/-! ### `fast_dir_size` (scanner.py)

The except-branches consult the oracles: an unlistable directory falls
back to Finder (VIP names) or `du`; an entry whose `stat` raises
contributes Finder (VIP names), `du` (directories) or nothing. -/

mutual

/-- Model of `fast_dir_size(path)` on the entry at that path. -/
def fast_dir_size : FSTree → Nat
  | .mk m none => if m.name ∈ VIP_FOLDERS then m.finder else m.du
  | .mk _ (some es) => fastListTotal es

/-- The loop body of `fast_dir_size` summed over a listing. -/
def fastListTotal : List FSTree → Nat
  | [] => 0
  | t :: ts =>
      (match t.meta.stat with
       | some b =>
           if t.meta.kind = .file then b * 512
           else if t.meta.kind = .dir then
             let sub := fast_dir_size t
             if sub < 1024 ∧ t.meta.name ∈ VIP_FOLDERS then t.meta.finder else sub
           else 0
       | none =>
           if t.meta.name ∈ VIP_FOLDERS then t.meta.finder
           else if t.meta.kind = .dir then t.meta.du
           else 0)
      + fastListTotal ts

end

/-! ### `_scan` and `_scan_dir_entry` (scanner.py) -/

/-- Synthetic "🔒 Protected data" child appended by gap detection. -/
def protNode (path : String) (denied gap : Nat) : ScanNode :=
  .mk (s!"🔒 Protected data ({denied} restricted)") path gap ("protected") none none none

/-- Synthetic "… n more items" child appended by truncation. -/
def truncNode (omitted extra : Nat) : ScanNode :=
  .mk (s!"… {omitted} more items") ("") extra ("other") none none none

/-- Does `c.get("children") == []` hold for this node? -/
def hasEmptyChildren (c : ScanNode) : Bool :=
  match c.children with
  | some [] => true
  | _ => false

/-- Gap detection block of `_scan`: on the top two levels compare the sum
of retained children with `du` for the whole directory; a discrepancy of
more than 100 KiB becomes a synthetic protected child, and
`scanned_total` is bumped to the `du` figure. -/
def gapStep (du : Nat) (path : String) (level : Nat)
    (dirs all : List ScanNode) (scannedTotal : Nat) : List ScanNode × Nat :=
  if level ≤ 1 then
    let gap : Int := (du : Int) - (scannedTotal : Int)
    if 102400 < gap then
      let denied := (dirs.filter hasEmptyChildren).length
      (all ++ [protNode path denied gap.toNat], du)
    else (all, scannedTotal)
  else (all, scannedTotal)

/-- Truncation block of `_scan`: keep the first `maxc` children of the
(already ordered) list and fold the rest into one synthetic node. -/
def truncStep (maxc : Nat) (all : List ScanNode) : List ScanNode :=
  if maxc < all.length then
    all.take maxc ++ [truncNode (all.length - maxc) (sumSizes (all.drop maxc))]
  else all

/-- Outcome of the non-recursive part of `_scan_dir_entry`: either a
finished node (or nothing), or "recurse into `_scan` at this child path". -/
inductive EntryStep where
  | done (r : Option ScanNode)
  | recurse (childPath : String)

/-- All of `_scan_dir_entry` except the recursive `_scan` call.  Field
order follows the source: failed stat first (directory → du estimate,
else dropped), then the `SKIP_NAMES` filter, then symlink/file leaves,
then directories (recurse when depth remains, else collapse through
`fast_dir_size` with the VIP Finder correction). -/
def scan_entry_step (ppath : String) (depth : Int) (t : FSTree) : EntryStep :=
  let m := t.meta
  let path := ppath ++ "/" ++ m.name
  match m.stat with
  | none =>
      if m.kind = .dir then
        .done (some (.mk m.name path m.du ("directory") none (some []) (some true)))
      else .done none
  | some b =>
      if m.name ∈ SKIP_NAMES then .done none
      else
        let physical := b * 512
        if m.kind = .symlink then
          .done (some (.mk m.name path physical ("file") (some (extOf m.name)) none none))
        else if m.kind = .file then
          .done (some (.mk m.name path physical ("file") (some (extOf m.name)) none none))
        else if m.kind = .dir then
          if 1 < depth then .recurse path
          else
            let size0 := fast_dir_size t
            let size1 := if size0 < 1024 ∧ m.name ∈ VIP_FOLDERS then m.finder else size0
            .done (some (.mk m.name path size1 ("directory") none (some []) (some true)))
        else .done none

/-- Python's stable descending sort of dirs before files, as `_scan` builds
`all_children` from the collected per-entry nodes. -/
def dirsOf (children : List ScanNode) : List ScanNode :=
  sortByDesc ScanNode.size (children.filter (fun c => c.ntype == "directory"))

/-- Files (every non-directory node) of `_scan`, sorted by size descending. -/
def filesOf (children : List ScanNode) : List ScanNode :=
  sortByDesc ScanNode.size (children.filter (fun c => !(c.ntype == "directory")))

/-- The tail of `_scan` on a listable directory: sort, sum, gap-detect,
truncate, then assemble the result dict. -/
def scanAssembled (path : String) (du : Nat) (maxc level : Nat)
    (children : List ScanNode) : ScanNode :=
  let dirs := dirsOf children
  let all0 := dirs ++ filesOf children
  let scannedTotal := sumSizes all0
  let p := gapStep du path level dirs all0 scannedTotal
  let all1 := truncStep maxc p.1
  .mk (basenameOr path) path (max p.2 (sumSizes all1)) ("directory")
    none (some all1) (some (!all1.isEmpty))

mutual

/-- Model of `_scan(path, depth, max_children, level)`.  The try/except
around the recursive `_scan` call in the source is dead in the model
(`scan` is total), matching the source where `_scan` catches its own
I/O errors.  An unlistable root keeps the initial result dict: size from
`du`, `children` present but empty, no `has_children` key. -/
def scan (path : String) (depth : Int) (maxc level : Nat) : FSTree → ScanNode
  | .mk m none =>
      .mk (basenameOr path) path m.du ("directory") none (some []) none
  | .mk m (some es) =>
      scanAssembled path m.du maxc level (scanChildren path depth maxc level es)

/-- The per-entry loop of `_scan`: apply `_scan_dir_entry` to each raw
entry, keeping the non-`None` results (exceptions cannot occur in the
model).  The level-0 thread pool only permutes completion order, which
the subsequent sort by size re-normalises, so listing order is used. -/
def scanChildren (ppath : String) (depth : Int) (maxc level : Nat) :
    List FSTree → List ScanNode
  | [] => []
  | t :: ts =>
      let rest := scanChildren ppath depth maxc level ts
      match scan_entry_step ppath depth t with
      | .done none => rest
      | .done (some n) => n :: rest
      | .recurse childPath => scan childPath (depth - 1) maxc (level + 1) t :: rest

end

/-- Model of `_scan_dir_entry(entry, depth, max_children, level)`. -/
def scan_dir_entry (ppath : String) (depth : Int) (maxc level : Nat)
    (t : FSTree) : Option ScanNode :=
  match scan_entry_step ppath depth t with
  | .done r => r
  | .recurse childPath => some (scan childPath (depth - 1) maxc (level + 1) t)

theorem scanChildren_cons (ppath : String) (depth : Int) (maxc level : Nat)
    (t : FSTree) (ts : List FSTree) :
    scanChildren ppath depth maxc level (t :: ts) =
      match scan_dir_entry ppath depth maxc level t with
      | some n => n :: scanChildren ppath depth maxc level ts
      | none => scanChildren ppath depth maxc level ts := by
  rw [scanChildren, scan_dir_entry]
  cases scan_entry_step ppath depth t with
  | done r => cases r <;> rfl
  | recurse p => rfl

/-! ### Claim C1: the size invariant of scanned trees -/

/-- Is this node one of the synthetic sentinels (`ProtectedGap` is the
`"protected"` node of gap detection, `Truncated` the `"other"` node of
truncation)? -/
def SyntheticNode (c : ScanNode) : Prop :=
  c.ntype = "protected" ∨ c.ntype = "other"

/-- The claimed invariant, at every directory node of a scan result: the
size dominates the sum of the retained children, with equality once any
synthetic child (`ProtectedGap`/`Truncated`) is among them. -/
inductive GoodTree : ScanNode → Prop where
  | leaf : ∀ n p s t e hc, GoodTree (.mk n p s t e none hc)
  | node : ∀ n p s t e cs hc,
      sumSizes cs ≤ s →
      ((∃ c ∈ cs, SyntheticNode c) → s = sumSizes cs) →
      (∀ c ∈ cs, GoodTree c) →
      GoodTree (.mk n p s t e (some cs) hc)

theorem good_of_children_none {c : ScanNode} (h : c.children = none) :
    GoodTree c := by
  rcases c with ⟨n, p, s, t, e, ch, hc⟩
  cases ch with
  | none => exact GoodTree.leaf n p s t e hc
  | some l => simp [ScanNode.children] at h

theorem good_of_children_nil {c : ScanNode} (h : c.children = some []) :
    GoodTree c := by
  rcases c with ⟨n, p, s, t, e, ch, hc⟩
  simp only [ScanNode.children] at h
  subst h
  exact GoodTree.node n p s t e [] hc (Nat.zero_le s) (by simp) (by simp)

theorem gapStep_sum (du : Nat) (path : String) (level : Nat)
    (dirs all : List ScanNode) (st : Nat) (h : st = sumSizes all) :
    sumSizes (gapStep du path level dirs all st).1 =
      (gapStep du path level dirs all st).2 := by
  by_cases h1 : level ≤ 1
  · by_cases h2 : (102400 : Int) < (du : Int) - (st : Int)
    · simp only [gapStep, if_pos h1, if_pos h2]
      rw [sumSizes_append]
      have hp : sumSizes [protNode path ((dirs.filter hasEmptyChildren).length)
          (Int.toNat ((du : Int) - (st : Int)))] =
          Int.toNat ((du : Int) - (st : Int)) := by
        simp [sumSizes, protNode, ScanNode.size]
      rw [hp, ← h]
      omega
    · simp only [gapStep, if_pos h1, if_neg h2]
      exact h.symm
  · simp only [gapStep, if_neg h1]
    exact h.symm

theorem truncStep_sum (maxc : Nat) (l : List ScanNode) :
    sumSizes (truncStep maxc l) = sumSizes l := by
  by_cases h : maxc < l.length
  · simp only [truncStep, if_pos h]
    rw [sumSizes_append]
    have h2 : sumSizes [truncNode (l.length - maxc) (sumSizes (l.drop maxc))] =
        sumSizes (l.drop maxc) := by
      simp [sumSizes, truncNode, ScanNode.size]
    rw [h2, sumSizes_take_drop]
  · simp only [truncStep, if_neg h]

theorem mem_truncStep {maxc : Nat} {l : List ScanNode} {c : ScanNode}
    (h : c ∈ truncStep maxc l) :
    c ∈ l ∨ c = truncNode (l.length - maxc) (sumSizes (l.drop maxc)) := by
  by_cases hl : maxc < l.length
  · simp only [truncStep, if_pos hl] at h
    rcases List.mem_append.mp h with h | h
    · exact Or.inl (List.take_subset _ _ h)
    · simp only [List.mem_singleton] at h
      exact Or.inr h
  · simp only [truncStep, if_neg hl] at h
    exact Or.inl h

theorem mem_gapStep {du : Nat} {path : String} {level : Nat}
    {dirs all : List ScanNode} {st : Nat} {c : ScanNode}
    (h : c ∈ (gapStep du path level dirs all st).1) :
    c ∈ all ∨ ∃ d g, c = protNode path d g := by
  by_cases h1 : level ≤ 1
  · by_cases h2 : (102400 : Int) < (du : Int) - (st : Int)
    · simp only [gapStep, if_pos h1, if_pos h2] at h
      rcases List.mem_append.mp h with h | h
      · exact Or.inl h
      · simp only [List.mem_singleton] at h
        exact Or.inr ⟨_, _, h⟩
    · simp only [gapStep, if_pos h1, if_neg h2] at h
      exact Or.inl h
  · simp only [gapStep, if_neg h1] at h
    exact Or.inl h

theorem mem_of_mem_dirsFiles {children : List ScanNode} {c : ScanNode}
    (h : c ∈ dirsOf children ++ filesOf children) : c ∈ children := by
  rcases List.mem_append.mp h with h | h
  · exact List.mem_of_mem_filter (mem_of_mem_sortByDesc h)
  · exact List.mem_of_mem_filter (mem_of_mem_sortByDesc h)

theorem scanAssembled_good (path : String) (du maxc level : Nat)
    (children : List ScanNode) (hch : ∀ c ∈ children, GoodTree c) :
    GoodTree (scanAssembled path du maxc level children) := by
  have hsum1 : sumSizes (gapStep du path level (dirsOf children)
      (dirsOf children ++ filesOf children)
      (sumSizes (dirsOf children ++ filesOf children))).1 =
      (gapStep du path level (dirsOf children)
        (dirsOf children ++ filesOf children)
        (sumSizes (dirsOf children ++ filesOf children))).2 :=
    gapStep_sum _ _ _ _ _ _ rfl
  have hsum2 := truncStep_sum maxc (gapStep du path level (dirsOf children)
      (dirsOf children ++ filesOf children)
      (sumSizes (dirsOf children ++ filesOf children))).1
  rw [hsum1] at hsum2
  show GoodTree (.mk _ _ _ _ _ (some _) _)
  refine GoodTree.node _ _ _ _ _ _ _ ?_ ?_ ?_
  · rw [hsum2]; exact le_max_right _ _
  · intro _
    rw [hsum2]
    exact max_self _
  · intro c hc
    rcases mem_truncStep hc with hc | rfl
    · rcases mem_gapStep hc with hc | ⟨d, g, rfl⟩
      · exact hch c (mem_of_mem_dirsFiles hc)
      · exact good_of_children_none rfl
    · exact good_of_children_none rfl

theorem scan_entry_step_children {ppath : String} {depth : Int} {t : FSTree}
    {c : ScanNode} (h : scan_entry_step ppath depth t = .done (some c)) :
    c.children = none ∨ c.children = some [] := by
  simp only [scan_entry_step] at h
  split at h
  · split at h
    · simp only [EntryStep.done.injEq, Option.some.injEq] at h
      subst h; right; rfl
    · simp at h
  · split at h
    · simp at h
    · split at h
      · simp only [EntryStep.done.injEq, Option.some.injEq] at h
        subst h; left; rfl
      · split at h
        · simp only [EntryStep.done.injEq, Option.some.injEq] at h
          subst h; left; rfl
        · split at h
          · split at h
            · simp at h
            · simp only [EntryStep.done.injEq, Option.some.injEq] at h
              subst h; right; rfl
          · simp at h

theorem mem_scanChildren {ppath : String} {depth : Int} {maxc level : Nat}
    {ts : List FSTree} {c : ScanNode}
    (h : c ∈ scanChildren ppath depth maxc level ts) :
    (∃ t ∈ ts, scan_entry_step ppath depth t = .done (some c)) ∨
    (∃ t ∈ ts, ∃ p, scan_entry_step ppath depth t = .recurse p ∧
      c = scan p (depth - 1) maxc (level + 1) t) := by
  induction ts with
  | nil => simp [scanChildren] at h
  | cons t ts ih =>
      rw [scanChildren] at h
      rcases hstep : scan_entry_step ppath depth t with r | p
      · rw [hstep] at h
        cases r with
        | none =>
            rcases ih h with ⟨u, hu, he⟩ | ⟨u, hu, q, hq, he⟩
            · exact Or.inl ⟨u, List.mem_cons_of_mem _ hu, he⟩
            · exact Or.inr ⟨u, List.mem_cons_of_mem _ hu, q, hq, he⟩
        | some n =>
            rcases List.mem_cons.mp h with rfl | h
            · exact Or.inl ⟨t, List.mem_cons_self _ _, hstep⟩
            · rcases ih h with ⟨u, hu, he⟩ | ⟨u, hu, q, hq, he⟩
              · exact Or.inl ⟨u, List.mem_cons_of_mem _ hu, he⟩
              · exact Or.inr ⟨u, List.mem_cons_of_mem _ hu, q, hq, he⟩
      · rw [hstep] at h
        rcases List.mem_cons.mp h with rfl | h
        · exact Or.inr ⟨t, List.mem_cons_self _ _, p, hstep, rfl⟩
        · rcases ih h with ⟨u, hu, he⟩ | ⟨u, hu, q, hq, he⟩
          · exact Or.inl ⟨u, List.mem_cons_of_mem _ hu, he⟩
          · exact Or.inr ⟨u, List.mem_cons_of_mem _ hu, q, hq, he⟩

theorem scan_good_aux : ∀ (n : Nat) (t : FSTree), sizeOf t ≤ n →
    ∀ (path : String) (depth : Int) (maxc level : Nat),
    GoodTree (scan path depth maxc level t) := by
  intro n
  induction n with
  | zero =>
      intro t ht
      rcases t with ⟨m, l⟩
      simp at ht
  | succ n ih =>
      intro t ht path depth maxc level
      rcases t with ⟨m, lst⟩
      cases lst with
      | none =>
          rw [scan]
          exact good_of_children_nil rfl
      | some es =>
          rw [scan]
          refine scanAssembled_good _ _ _ _ _ ?_
          intro c hc
          rcases mem_scanChildren hc with ⟨u, hu, he⟩ | ⟨u, hu, q, hq, he⟩
          · rcases scan_entry_step_children he with h | h
            · exact good_of_children_none h
            · exact good_of_children_nil h
          · subst he
            have hlt : sizeOf u < sizeOf (FSTree.mk m (some es)) := by
              have h1 := List.sizeOf_lt_of_mem hu
              simp only [FSTree.mk.sizeOf_spec, Option.some.sizeOf_spec]
              omega
            exact ih u (by omega) _ _ _ _

/-- C1 (confirmed): for every directory node in the tree returned by a
scan, `sizeBytes` is at least the sum of the retained children's sizes,
and once a synthetic `ProtectedGap` (`"protected"`) or `Truncated`
(`"other"`) child is among the children, the size equals that sum. -/
theorem scan_size_invariant (path : String) (depth : Int) (maxc level : Nat)
    (t : FSTree) : GoodTree (scan path depth maxc level t) :=
  scan_good_aux (sizeOf t) t le_rfl path depth maxc level

/-! ### Claims C2 and C4: gap detection and truncation -/

/-- The children list of a node dict (empty when the key is missing). -/
def childNodes (n : ScanNode) : List ScanNode :=
  (ScanNode.children n).getD []

/-- The retained (real) children of `_scan` on a listable directory:
directories sorted by size descending, then files sorted by size
descending, before gap detection and truncation. -/
def retainedChildren (path : String) (depth : Int) (maxc level : Nat)
    (es : List FSTree) : List ScanNode :=
  dirsOf (scanChildren path depth maxc level es) ++
    filesOf (scanChildren path depth maxc level es)

/-- The children of `_scan` after gap detection but before truncation. -/
def gappedChildren (path : String) (du : Nat) (depth : Int) (maxc level : Nat)
    (es : List FSTree) : List ScanNode :=
  (gapStep du path level (dirsOf (scanChildren path depth maxc level es))
    (retainedChildren path depth maxc level es)
    (sumSizes (retainedChildren path depth maxc level es))).1

theorem scan_children_eq (m : EntryMeta) (es : List FSTree) (path : String)
    (depth : Int) (maxc level : Nat) :
    (scan path depth maxc level (.mk m (some es))).children =
      some (truncStep maxc (gappedChildren path m.du depth maxc level es)) :=
  rfl

theorem scan_ntype (path : String) (depth : Int) (maxc level : Nat)
    (t : FSTree) : (scan path depth maxc level t).ntype = "directory" := by
  rcases t with ⟨m, lst⟩
  cases lst <;> rfl

theorem scan_entry_step_ntype {ppath : String} {depth : Int} {t : FSTree}
    {c : ScanNode} (h : scan_entry_step ppath depth t = .done (some c)) :
    c.ntype = "directory" ∨ c.ntype = "file" := by
  simp only [scan_entry_step] at h
  split at h
  · split at h
    · simp only [EntryStep.done.injEq, Option.some.injEq] at h
      subst h; left; rfl
    · simp at h
  · split at h
    · simp at h
    · split at h
      · simp only [EntryStep.done.injEq, Option.some.injEq] at h
        subst h; right; rfl
      · split at h
        · simp only [EntryStep.done.injEq, Option.some.injEq] at h
          subst h; right; rfl
        · split at h
          · split at h
            · simp at h
            · simp only [EntryStep.done.injEq, Option.some.injEq] at h
              subst h; left; rfl
          · simp at h

/-- C2 (corrected), part of the statement: what gap detection appends and
where.  At level 0 or 1, when the `du` measurement exceeds the retained
children's sum by more than 100 KiB and the result stays within the
fanout limit, a protected node carrying the difference is appended; its
recorded count is the number of directory children whose retained child
list is empty.  At level 2 or deeper no protected child ever appears. -/
theorem scan_gap_spec (m : EntryMeta) (es : List FSTree) (path : String)
    (depth : Int) (maxc level : Nat) :
    (level ≤ 1 →
      (102400 : Int) < (m.du : Int) -
        (sumSizes (retainedChildren path depth maxc level es) : Int) →
      (retainedChildren path depth maxc level es).length + 1 ≤ maxc →
      (scan path depth maxc level (.mk m (some es))).children =
        some (retainedChildren path depth maxc level es ++
          [protNode path
            (((dirsOf (scanChildren path depth maxc level es)).filter
              hasEmptyChildren).length)
            (m.du - sumSizes (retainedChildren path depth maxc level es))]))
    ∧ (2 ≤ level →
        ∀ c ∈ childNodes (scan path depth maxc level (.mk m (some es))),
          c.ntype ≠ "protected") := by
  constructor
  · intro h1 h2 h3
    rw [scan_children_eq]
    have hgap : gappedChildren path m.du depth maxc level es =
        retainedChildren path depth maxc level es ++
          [protNode path
            (((dirsOf (scanChildren path depth maxc level es)).filter
              hasEmptyChildren).length)
            (m.du - sumSizes (retainedChildren path depth maxc level es))] := by
      have ht : Int.toNat ((m.du : Int) -
          (sumSizes (retainedChildren path depth maxc level es) : Int)) =
          m.du - sumSizes (retainedChildren path depth maxc level es) := by
        omega
      simp only [gappedChildren, gapStep, if_pos h1, if_pos h2, ht]
    rw [hgap]
    have hlen : ¬ (maxc < (retainedChildren path depth maxc level es ++
        [protNode path
          (((dirsOf (scanChildren path depth maxc level es)).filter
            hasEmptyChildren).length)
          (m.du - sumSizes (retainedChildren path depth maxc level es))]).length) := by
      simp only [List.length_append, List.length_singleton]
      omega
    rw [truncStep, if_neg hlen]
  · intro h2 c hc
    have hs : childNodes (scan path depth maxc level (.mk m (some es))) =
        truncStep maxc (gappedChildren path m.du depth maxc level es) := by
      simp [childNodes, scan_children_eq]
    rw [hs] at hc
    have hng : gappedChildren path m.du depth maxc level es =
        retainedChildren path depth maxc level es := by
      have : ¬ (level ≤ 1) := by omega
      simp only [gappedChildren, gapStep, if_neg this]
    rw [hng] at hc
    rcases mem_truncStep hc with hc | rfl
    · rcases mem_scanChildren (mem_of_mem_dirsFiles hc) with ⟨u, _, he⟩ | ⟨u, _, q, _, he⟩
      · rcases scan_entry_step_ntype he with h | h <;> simp [h]
      · rw [he, scan_ntype]
        decide
    · simp [truncNode, ScanNode.ntype]

/-- Number of subdirectory entries of this directory whose own listing is
denied (`os.scandir` raises): the genuinely unreadable subdirectories. -/
def unreadableSubdirCount (t : FSTree) : Nat :=
  (((FSTree.listing t).getD []).filter
    (fun c => c.meta.kind == EKind.dir && (FSTree.listing c).isNone)).length

/-- A perfectly readable, empty subdirectory of an otherwise large
directory: `du` sees 200000 bytes the enumeration cannot. -/
def c2child : FSTree := .mk ⟨"d", some 0, .dir, 0, 0⟩ (some [])

/-- Root for the C2 counterexample: one readable empty subdirectory,
`du` reports 200000 bytes. -/
def c2root : FSTree := .mk ⟨"r", some 0, .dir, 200000, 0⟩ (some [c2child])

/-- C2 counterexample: the gap child's recorded count is 1 (it counts the
readable, empty subdirectory `d`, whose retained child list is empty),
while the number of unreadable subdirectories is 0 — so the count is not
"how many subdirectories were unreadable" as claimed. -/
theorem scan_gap_count_counterexample :
    childNodes (scan ("/r") 3 500 0 c2root) =
      [ScanNode.mk ("d") ("/r/d") 0 ("directory") none (some []) (some false),
        protNode ("/r") 1 200000]
    ∧ unreadableSubdirCount c2root = 0 :=
  ⟨rfl, rfl⟩

/-- C4 (corrected): when the children after gap detection exceed the
fanout limit, `_scan` keeps the first `fanoutLimit` of them in its
dirs-before-files, each-sorted-by-size order (not the `fanoutLimit`
largest overall), and folds the rest into one synthetic node carrying
their count and summed size. -/
theorem scan_trunc_spec (m : EntryMeta) (es : List FSTree) (path : String)
    (depth : Int) (maxc level : Nat)
    (h : maxc < (gappedChildren path m.du depth maxc level es).length) :
    (scan path depth maxc level (.mk m (some es))).children =
      some ((gappedChildren path m.du depth maxc level es).take maxc ++
        [truncNode ((gappedChildren path m.du depth maxc level es).length - maxc)
          (sumSizes ((gappedChildren path m.du depth maxc level es).drop maxc))]) := by
  rw [scan_children_eq, truncStep, if_pos h]

/-- Directory of 501 single-byte files (each occupying one 512-byte
block on disk), for concrete scenario B. -/
def b501 : List FSTree :=
  (List.range 501).map (fun i => FSTree.mk ⟨s!"f{i}", some 1, .file, 0, 0⟩ none)

/-- Root entry over `b501`; `du` agrees with the enumerated total
(501 × 512 bytes), so no gap child intervenes. -/
def b501root : FSTree := .mk ⟨"big", some 0, .dir, 256512, 0⟩ (some b501)

set_option maxRecDepth 1000000 in
/-- Witness for `scan_trunc_spec`, which is concrete scenario B: scanning
501 single-byte files with fanout limit 500 keeps 500 children and folds
the remaining one into a synthetic node of count 1 and size 512. -/
theorem scan_trunc_spec_witness :
    (scan ("/u/big") 1 500 0 b501root).children =
      some ((gappedChildren ("/u/big") 256512 1 500 0 b501).take 500 ++
        [truncNode 1 512]) :=
  scan_trunc_spec ⟨"big", some 0, .dir, 256512, 0⟩ b501 ("/u/big") 1 500 0
    (by decide)

/-- Empty readable subdirectory for the C4 counterexample. -/
def c4dir : FSTree := .mk ⟨"d", some 0, .dir, 0, 0⟩ (some [])

/-- A 1024-byte (two-block) file for the C4 counterexample. -/
def c4file : FSTree := .mk ⟨"f", some 2, .file, 0, 0⟩ none

/-- Root with one empty directory and one 1024-byte file. -/
def c4root : FSTree := .mk ⟨"r", some 0, .dir, 0, 0⟩ (some [c4dir, c4file])

/-- C4 counterexample: with fanout limit 1, a directory containing an
empty subdirectory (size 0) and a 1024-byte file keeps the size-0
directory and folds the strictly larger file into the synthetic node —
the kept child is not the largest child. -/
theorem scan_trunc_counterexample :
    childNodes (scan ("/r") 1 1 2 c4root) =
      [ScanNode.mk ("d") ("/r/d") 0 ("directory") none (some []) (some true),
        truncNode 1 1024] :=
  rfl

/-! ### Claims C3 and C10: `_rm_robust` (routes.py)

`/bin/rm -rf` is an external process; its effect is an oracle: `rm_robust`
receives the state of the target subtree after `rm` ran (`none` when the
target no longer exists).  Residual entries carry a `locked` flag: an
`os.rmdir` on a locked directory fails even when the directory is empty
(SIP protection); residual files are never removed by the walk. -/

/-- Residual filesystem subtree after `/bin/rm -rf`. -/
inductive RTree where
  | file (name : String)
  | dir (name : String) (locked : Bool) (children : List RTree)

mutual

/-- Whether the bottom-up `os.walk` pass ends with this entry removed:
residual files stay; a directory is removed exactly when it is not
locked, holds no file, and all of its subdirectories were removed. -/
def rgone : RTree → Bool
  | .file _ => false
  | .dir _ locked cs => !locked && rgoneList cs

/-- All entries of the list end up removed. -/
def rgoneList : List RTree → Bool
  | [] => true
  | c :: cs => rgone c && rgoneList cs

end

/-- Paths of the residual files directly in `p` (appended to
`skipped_paths` when the walk reaches `p`'s tuple). -/
def fileSkips (p : String) (cs : List RTree) : List String :=
  cs.filterMap (fun c => match c with
    | .file n => some (p ++ "/" ++ n)
    | .dir _ _ _ => none)

/-- Paths of the subdirectories of `p` whose `os.rmdir` fails when `p`'s
tuple is processed (every subtree strictly below was handled first). -/
def dirSkips (p : String) (cs : List RTree) : List String :=
  cs.filterMap (fun c => match c with
    | .file _ => none
    | .dir n lk cs2 => if rgone (.dir n lk cs2) then none else some (p ++ "/" ++ n))

/-- Name of a residual entry. -/
def RTree.name : RTree → String
  | .file n => n
  | .dir n _ _ => n

mutual

/-- Skipped paths produced by all `os.walk` tuples rooted at the entry at
path `q`: nothing for a residual file; for a directory, the tuples of its
subdirectories first (bottom-up), then its own tuple, which appends its
residual files and then its subdirectories whose `rmdir` fails. -/
def descSkips (q : String) : RTree → List String
  | .file _ => []
  | .dir _ _ cs => listDescSkips q cs ++ fileSkips q cs ++ dirSkips q cs

/-- Tuples of the walks of each entry of the list, in listing order. -/
def listDescSkips (q : String) : List RTree → List String
  | [] => []
  | c :: cs => descSkips (q ++ "/" ++ RTree.name c) c ++ listDescSkips q cs

end

/-- All skipped paths collected by the `os.walk(target, topdown=False)`
loop of `_rm_robust` over a residual directory listing `cs`. -/
def walkSkips (p : String) (cs : List RTree) : List String :=
  listDescSkips p cs ++ fileSkips p cs ++ dirSkips p cs

/-- Model of `_rm_robust(target)`.  `afterRm` is the state of the target
once `/bin/rm -rf` has run: `none` when `os.path.exists` is false (full
success), a residual file when the target is not a directory, a residual
directory otherwise, in which case `deleted_count` is set to 1 and the
bottom-up cleanup walk runs; the final `os.rmdir(target)` resets the
skipped list to `[]` on success and appends the target on failure. -/
def rm_robust (afterRm : Option RTree) (target : String) : Nat × List String :=
  match afterRm with
  | none => (1, [])
  | some (.file _) => (0, [target])
  | some (.dir _ lk cs) =>
      if !lk && rgoneList cs then (1, [])
      else (1, walkSkips target cs ++ [target])

/-- Fully SIP-locked directory: a locked directory holding one file.
`/bin/rm -rf` on it removes nothing, so the residual equals the original. -/
def c3tree : RTree := .dir ("d") true [.file ("f")]

/-- C3 (code bug, evaluation at the failing input): when `/bin/rm`
removes nothing from a fully protected directory (the residual subtree
equals the pre-deletion subtree, so nothing at all was removable), the
outcome still reports `deletedCount = 1` with the survivors skipped —
contradicting the function's own docstring ("deleted_count == 0 →
nothing could be removed at all") and the claimed invariant. -/
theorem rm_robust_blocked_dir :
    rm_robust (some c3tree) ("/t/d") = (1, ["/t/d/f", "/t/d"]) :=
  rfl

/-- C10 (confirmed): a target that does not exist once `/bin/rm -rf` has
run — in particular one that never existed, since `rm -rf` on a missing
path changes nothing and exits quietly — yields the full-success outcome
`(1, [])`, indistinguishable from an actual removal. -/
theorem rm_robust_nonexistent (target : String) :
    rm_robust none target = (1, []) :=
  rfl

/-! ### Claim C5: the deny-list guard of `api_delete` (routes.py) -/

/-- The `critical` set of `api_delete` (a Python set literal; membership
is what matters). `home` is `os.path.expanduser("~")`. -/
def criticalPaths (home : String) : List String :=
  ["/", "/Users", home, "/System", "/Library", "/Applications",
    "/usr", "/bin", "/sbin", "/etc", "/var", "/tmp", "/private"]

/-- HTTP-level outcome of `api_delete`. -/
inductive DelResponse where
  | err (status : Nat) (msg : String)
  | ok (msg : String) (skipped : List String)
deriving DecidableEq

/-- Model of the `api_delete` handler on a request `{path, permanent}`
whose `path` is present and absolute (`os.path.abspath` is the identity
on absolute normalised paths).  The filesystem state is abstract
(`σ : S`); `runRm`/`runTrash` stand for `_rm_robust`/`_trash_robust`
together with their filesystem effect.  The deny-list guard fires before
either engine runs; afterwards the three response shapes mirror the
handler (cache invalidation and the SSE push touch no filesystem state). -/
def api_delete {S : Type} (home target : String) (permanent : Bool)
    (runRm runTrash : String → S → S × (Nat × List String)) (σ : S) :
    S × DelResponse :=
  if target ∈ criticalPaths home then
    (σ, .err 403 ("Cannot delete critical system path"))
  else
    let r := if permanent then runRm target σ else runTrash target σ
    let dc := r.2.1
    let sk := r.2.2
    let bn := basename target
    if dc = 0 ∧ sk ≠ [] then
      (r.1, .ok ("Operation not permitted — all items are SIP-protected") sk)
    else if sk ≠ [] then
      let n := sk.length
      (r.1, .ok (if permanent then s!"Partially deleted ({n} protected item(s) skipped)"
        else s!"Partially trashed ({n} protected item(s) skipped)") sk)
    else
      (r.1, .ok (if permanent then s!"Permanently deleted: {bn}"
        else s!"Moved to Trash: {bn}") [])

/-- C5 (confirmed): for a deny-listed absolute target, both deletion
modes return the fixed `ProtectedPath` rejection (HTTP 403, "Cannot
delete critical system path") and neither engine runs: the filesystem
state comes back unchanged, for every possible engine behaviour. -/
theorem api_delete_protected {S : Type} (home target : String)
    (permanent : Bool) (runRm runTrash : String → S → S × (Nat × List String))
    (σ : S) (h : target ∈ criticalPaths home) :
    api_delete home target permanent runRm runTrash σ =
      (σ, .err 403 ("Cannot delete critical system path")) := by
  simp [api_delete, h]

/-- Witness for `api_delete_protected`: deleting the filesystem root is
rejected and a counting state is untouched, under both modes. -/
theorem api_delete_protected_witness :
    api_delete ("/Users/u") ("/") true
        (fun _ σ => (σ + 1, (1, []))) (fun _ σ => (σ + 1, (1, []))) (0 : Nat) =
      ((0 : Nat), .err 403 ("Cannot delete critical system path")) :=
  api_delete_protected ("/Users/u") ("/") true _ _ 0 (by decide)

/-! ### Claim C8: the depth clamp of `api_scan` (routes.py) -/

/-- Model of the depth computation in `api_scan`: the parsed query value
is clamped only from above (`depth = min(depth, 10)`) before being
passed to `scan_directory`. -/
def api_scan_depth (depth : Int) : Int := min depth 10

/-- C8 (corrected): the depth the scanner receives is clamped above to
10; values of at most 10 — including 0 and negative values — pass
through unchanged, so there is no lower clamp to 1. -/
theorem api_scan_depth_spec (depth : Int) :
    api_scan_depth depth ≤ 10 ∧ (depth ≤ 10 → api_scan_depth depth = depth) ∧
      (10 < depth → api_scan_depth depth = 10) :=
  ⟨min_le_right _ _, fun h => min_eq_left h, fun h => min_eq_right h.le⟩

/-- C8 counterexample: a request with depth 0 reaches the scanner with
depth 0, outside the claimed interval [1, 10]. -/
theorem api_scan_depth_counterexample :
    api_scan_depth 0 = 0 ∧ ¬ (1 ≤ api_scan_depth 0) := by
  decide

/-! ### Claim C9: the result cache of `scan_directory` (scanner.py) -/

/-- The `_SCAN_CACHE` dict, key ↦ (timestamp, data); writes prepend, the
lookup takes the most recent binding, matching dict assignment. -/
abbrev Cache := List (String × (Int × ScanNode))

/-- Dictionary lookup `_SCAN_CACHE.get(key)`. -/
def cacheGet (c : Cache) (k : String) : Option (Int × ScanNode) :=
  match c with
  | [] => none
  | (k2, v) :: rest => if k2 = k then some v else cacheGet rest k

/-- The cache key `f"{path}_{depth}_{max_children}"`. -/
def cacheKey (path : String) (depth : Int) (maxc : Nat) : String :=
  path ++ "_" ++ toString depth ++ "_" ++ toString maxc

/-- Value of `scanner._CACHE_TTL` (seconds). -/
def CACHE_TTL : Int := 120

/-- Model of `scan_directory(path, depth, max_children)`: a read-through
cache in front of `_scan`.  `fsAt` gives the (unchanged) filesystem tree
rooted at a path; `now` is the clock (`time.time()`), in whole seconds. -/
def scan_directory (fsAt : String → FSTree) (now : Int) (c : Cache)
    (path : String) (depth : Int) (maxc : Nat) : ScanNode × Cache :=
  let key := cacheKey path depth maxc
  match cacheGet c key with
  | some (ts, data) =>
      if now - ts < CACHE_TTL then (data, c)
      else
        let d := scan path depth maxc 0 (fsAt path)
        (d, (key, (now, d)) :: c)
  | none =>
      let d := scan path depth maxc 0 (fsAt path)
      (d, (key, (now, d)) :: c)

/-- C9 (confirmed): on an unchanged filesystem, a second scan of the same
`(path, depth, fanoutLimit)` within the TTL returns exactly the node
structure of the first scan straight from the cache (the cache itself is
untouched, so no re-scan happened); a lookup whose stored entry is at
least TTL seconds old ignores the entry and re-scans, storing the fresh
result; and whenever the stored entry holds the scan of the unchanged
filesystem, any later scan returns that identical node structure whether
it hits the cache or re-scans. -/
theorem scan_directory_cache_spec (fsAt : String → FSTree) (c : Cache)
    (path : String) (depth : Int) (maxc : Nat) (t1 t2 : Int) :
    (cacheGet c (cacheKey path depth maxc) = none → t2 - t1 < CACHE_TTL →
      scan_directory fsAt t2 (scan_directory fsAt t1 c path depth maxc).2
          path depth maxc =
        ((scan_directory fsAt t1 c path depth maxc).1,
          (scan_directory fsAt t1 c path depth maxc).2))
    ∧ (∀ ts d0, cacheGet c (cacheKey path depth maxc) = some (ts, d0) →
        CACHE_TTL ≤ t2 - ts →
        scan_directory fsAt t2 c path depth maxc =
          (scan path depth maxc 0 (fsAt path),
            (cacheKey path depth maxc,
              (t2, scan path depth maxc 0 (fsAt path))) :: c))
    ∧ (∀ ts, cacheGet c (cacheKey path depth maxc) =
          some (ts, scan path depth maxc 0 (fsAt path)) →
        (scan_directory fsAt t2 c path depth maxc).1 =
          scan path depth maxc 0 (fsAt path)) := by
  refine ⟨?_, ?_, ?_⟩
  · intro h hT
    have h1 : scan_directory fsAt t1 c path depth maxc =
        (scan path depth maxc 0 (fsAt path),
          (cacheKey path depth maxc,
            (t1, scan path depth maxc 0 (fsAt path))) :: c) := by
      simp [scan_directory, h]
    rw [h1]
    simp [scan_directory, cacheGet, hT]
  · intro ts d0 hget hold
    have hT : ¬ (t2 - ts < CACHE_TTL) := by omega
    simp [scan_directory, hget, hT]
  · intro ts hget
    by_cases hT : t2 - ts < CACHE_TTL
    · simp [scan_directory, hget, hT]
    · simp [scan_directory, hget, hT]

/-! ### Claim C7: reconciliation in `get_full_disk_info` (disk_info.py)

`shutil.disk_usage("/")` and the `categorize_home_storage()` scan results
are external measurements; they enter the model as parameters. -/

/-- One category bucket dict `{name, size, color}`. -/
structure Bucket where
  name : String
  size : Nat
  color : String
deriving DecidableEq

/-- Sum of bucket sizes. -/
def sumB (l : List Bucket) : Nat :=
  (l.map Bucket.size).sum

/-- Total size carried by buckets of the given name. -/
def sumNamed (n : String) (l : List Bucket) : Nat :=
  sumB (l.filter (fun b => b.name == n))

/-- The 20 GB macOS footprint estimate (`20 * 1024 ** 3`). -/
def MACOS_CAP : Nat := 20 * 1024 * 1024 * 1024

/-- Colour `CATEGORY_COLORS["macOS"]` (equal to the `.get` default in the code). -/
def macOSColor : String := "#48484a"

/-- Colour `CATEGORY_COLORS["System Data"]` (equal to the `.get` default). -/
def sysDataColor : String := "#8e8e93"

/-- The in-place `cat["size"] += sys_data_size` on the first bucket named
"System Data"; `none` when no bucket has that name. -/
def mergeSysData (sys : Nat) : List Bucket → Option (List Bucket)
  | [] => none
  | b :: bs =>
      if b.name = "System Data" then some ({ b with size := b.size + sys } :: bs)
      else (mergeSysData sys bs).map (b :: ·)

/-- Reconciliation tail of `get_full_disk_info`: the positive part of
`used - categorized` is split into a macOS share (capped at 20 GB) and a
System Data remainder (merged into an existing bucket when present),
then everything is sorted by size descending. -/
def reconcile (used : Nat) (cats : List Bucket) : List Bucket :=
  let categorizedTotal := sumB cats
  let remainingUsed := used - categorizedTotal
  let macosSize := min MACOS_CAP remainingUsed
  let sysDataSize := remainingUsed - macosSize
  let cats1 :=
    if 0 < macosSize then cats ++ [⟨"macOS", macosSize, macOSColor⟩] else cats
  let cats2 :=
    if 0 < sysDataSize then
      match mergeSysData sysDataSize cats1 with
      | some l => l
      | none => cats1 ++ [⟨"System Data", sysDataSize, sysDataColor⟩]
    else cats1
  sortByDesc Bucket.size cats2

/-- Raw volume numbers from `shutil.disk_usage("/")`. -/
structure DiskUsage where
  total : Nat
  used : Nat
  free : Nat

/-- The response dict of `get_full_disk_info`. -/
structure DiskInfo where
  total : Nat
  used : Nat
  free : Nat
  categories : List Bucket

/-- Model of `get_full_disk_info()`, taking the volume usage and the
`categorize_home_storage()` output as the external measurements they are. -/
def get_full_disk_info (usage : DiskUsage) (cats : List Bucket) : DiskInfo :=
  { total := usage.total, used := usage.used, free := usage.free,
    categories := reconcile usage.used cats }

theorem sumB_append (a b : List Bucket) : sumB (a ++ b) = sumB a + sumB b := by
  simp [sumB]

theorem sumB_perm {a b : List Bucket} (h : List.Perm a b) : sumB a = sumB b :=
  (h.map Bucket.size).sum_eq

theorem sumNamed_perm (n : String) {a b : List Bucket} (h : List.Perm a b) :
    sumNamed n a = sumNamed n b :=
  sumB_perm (h.filter _)

theorem sumNamed_append (n : String) (a b : List Bucket) :
    sumNamed n (a ++ b) = sumNamed n a + sumNamed n b := by
  simp [sumNamed, List.filter_append, sumB_append]

theorem mergeSysData_sum {sys : Nat} {l l2 : List Bucket}
    (h : mergeSysData sys l = some l2) : sumB l2 = sumB l + sys := by
  induction l generalizing l2 with
  | nil => simp [mergeSysData] at h
  | cons b bs ih =>
      simp only [mergeSysData] at h
      split at h
      · cases h
        simp [sumB]
        omega
      · rcases Option.map_eq_some'.mp h with ⟨l3, h3, rfl⟩
        have := ih h3
        simp [sumB] at this ⊢
        omega

theorem mergeSysData_sumNamed {sys : Nat} {l l2 : List Bucket} (n : String)
    (h : mergeSysData sys l = some l2) :
    sumNamed n l2 = sumNamed n l + (if n = "System Data" then sys else 0) := by
  induction l generalizing l2 with
  | nil => simp [mergeSysData] at h
  | cons b bs ih =>
      simp only [mergeSysData] at h
      split at h
      · rename_i hb
        cases h
        by_cases hn : n = "System Data"
        · subst hn
          simp [sumNamed, sumB, hb]
          omega
        · have hb2 : ¬ (b.name = n) := by rw [hb]; exact fun hc => hn hc.symm
          simp [sumNamed, sumB, hb2, hn]
      · rcases Option.map_eq_some'.mp h with ⟨l3, h3, rfl⟩
        have := ih h3
        by_cases hb : b.name = n
        · simp [sumNamed, sumB, hb] at this ⊢
          omega
        · simp [sumNamed, sumB, hb] at this ⊢
          exact this

/-- C7 (corrected): after reconciliation the bucket sizes sum to
`max(categorized, used)` — equal to the volume's used bytes exactly
whenever the categorized sum does not exceed them; the positive gap
`used - categorized` is attributed to a macOS bucket capped at 20 GB
with the remainder on "System Data" (merged into an existing bucket of
that name when present); the final list is sorted by size descending. -/
theorem disk_info_reconcile_spec (usage : DiskUsage) (cats : List Bucket) :
    sumB (get_full_disk_info usage cats).categories = max (sumB cats) usage.used
    ∧ (get_full_disk_info usage cats).categories.Pairwise
        (fun a b => b.size ≤ a.size)
    ∧ sumNamed ("macOS") (get_full_disk_info usage cats).categories =
        sumNamed ("macOS") cats + min MACOS_CAP (usage.used - sumB cats)
    ∧ sumNamed ("System Data") (get_full_disk_info usage cats).categories =
        sumNamed ("System Data") cats +
          ((usage.used - sumB cats) - min MACOS_CAP (usage.used - sumB cats)) := by
  have hdef : (get_full_disk_info usage cats).categories = reconcile usage.used cats := rfl
  rw [hdef]
  set used := usage.used with hused
  set a := sumB cats with ha
  set mac := min MACOS_CAP (used - a) with hmac
  set sys := (used - a) - mac with hsys
  have singleB : ∀ (nm cl : String) (sz : Nat), sumB [⟨nm, sz, cl⟩] = sz := by
    intro nm cl sz
    simp [sumB]
  have singleN : ∀ (n nm cl : String) (sz : Nat),
      sumNamed n [⟨nm, sz, cl⟩] = if nm = n then sz else 0 := by
    intro n nm cl sz
    by_cases h : nm = n <;> simp [sumNamed, sumB, h]
  have hshape : ∃ cats2, reconcile used cats = sortByDesc Bucket.size cats2
      ∧ sumB cats2 = a + mac + sys
      ∧ sumNamed ("macOS") cats2 = sumNamed ("macOS") cats + mac
      ∧ sumNamed ("System Data") cats2 = sumNamed ("System Data") cats + sys := by
    rw [reconcile]
    set cats1 := if 0 < mac then cats ++ [⟨"macOS", mac, macOSColor⟩] else cats with hc1
    have h1sum : sumB cats1 = a + mac := by
      rw [hc1]
      by_cases h : 0 < mac
      · rw [if_pos h, sumB_append, singleB]
      · rw [if_neg h]
        omega
    have h1mac : sumNamed ("macOS") cats1 = sumNamed ("macOS") cats + mac := by
      rw [hc1]
      by_cases h : 0 < mac
      · rw [if_pos h, sumNamed_append, singleN]
        simp
      · rw [if_neg h]
        omega
    have h1sys : sumNamed ("System Data") cats1 = sumNamed ("System Data") cats := by
      rw [hc1]
      by_cases h : 0 < mac
      · rw [if_pos h, sumNamed_append, singleN]
        simp
      · rw [if_neg h]
    by_cases h2 : 0 < sys
    · rcases hm : mergeSysData sys cats1 with _ | l2
      · refine ⟨cats1 ++ [⟨"System Data", sys, sysDataColor⟩], ?_, ?_, ?_, ?_⟩
        · simp only [if_pos h2, hm]
        · rw [sumB_append, h1sum, singleB]
        · rw [sumNamed_append, h1mac, singleN]
          simp
        · rw [sumNamed_append, h1sys, singleN]
          simp
      · refine ⟨l2, ?_, ?_, ?_, ?_⟩
        · simp only [if_pos h2, hm]
        · rw [mergeSysData_sum hm, h1sum]
        · rw [mergeSysData_sumNamed ("macOS") hm, h1mac]
          simp
        · rw [mergeSysData_sumNamed ("System Data") hm, h1sys]
          simp
    · have hs0 : sys = 0 := by omega
      refine ⟨cats1, ?_, ?_, ?_, ?_⟩
      · simp only [if_neg h2]
      · omega
      · omega
      · omega
  rcases hshape with ⟨cats2, hs, h1, h2, h3⟩
  rw [hs]
  refine ⟨?_, sortByDesc_sorted _ _, ?_, ?_⟩
  · rw [sumB_perm (sortByDesc_perm Bucket.size cats2), h1]
    omega
  · rw [sumNamed_perm _ (sortByDesc_perm Bucket.size cats2), h2]
  · rw [sumNamed_perm _ (sortByDesc_perm Bucket.size cats2), h3]

/-- Categorized measurement exceeding the volume's used bytes by 1 TB
(overlapping `du` measurements, e.g. via hard links, can overcount). -/
def c7bucket : Bucket := ⟨"Apps", 1000000000000, "#ff3b30"⟩

/-- C7 counterexample: with used = 0 and a categorized total of 1 TB,
reconciliation leaves the bucket sum at 1 TB — a 1 TB discrepancy from
the volume's reported used bytes, not "within a small tolerance". -/
theorem disk_info_tolerance_counterexample :
    (get_full_disk_info ⟨500000000000, 0, 500000000000⟩ [c7bucket]).used = 0
    ∧ sumB (get_full_disk_info ⟨500000000000, 0, 500000000000⟩
        [c7bucket]).categories = 1000000000000 :=
  ⟨rfl, rfl⟩

/-! ### Claim C6: collision-safe naming in `_trash_robust` (routes.py)

`get_safe_dest(base)` returns `base` when nothing exists there, else the
first `f"{name_base} {counter}{ext}"`, counter = 1, 2, ..., that does not
exist.  The existence oracle is the set `existing` of paths for which
`os.path.exists` answers true (stable while the loop runs).  The loop
always terminates because decimal numerals are injective, so at most
`len(existing)` candidates can be taken; the model's `Nat.find` is the
same first free counter. -/

theorem strDataEq {a b : String} (h : a.data = b.data) : a = b := by
  cases a
  cases b
  exact congrArg String.mk h

theorem data_append (a b : String) : (a ++ b).data = a.data ++ b.data :=
  rfl

theorem data_asString (l : List Char) : (List.asString l).data = l :=
  rfl

theorem strAppend_cancel_left {a x y : String} (h : a ++ x = a ++ y) : x = y := by
  have h2 := congrArg String.data h
  rw [data_append, data_append] at h2
  exact strDataEq (List.append_cancel_left h2)

/-- Decimal digits of `n`, most significant first. -/
def digitsOf (n : Nat) : List Char :=
  if _h : n < 10 then [Nat.digitChar n]
  else digitsOf (n / 10) ++ [Nat.digitChar (n % 10)]
decreasing_by exact Nat.div_lt_self (by omega) (by omega)

theorem toDigitsCore_eq_digitsOf :
    ∀ (f n : Nat) (acc : List Char), n < f →
      Nat.toDigitsCore 10 f n acc = digitsOf n ++ acc := by
  intro f
  induction f with
  | zero => intro n acc h; omega
  | succ f ih =>
      intro n acc h
      rw [Nat.toDigitsCore]
      by_cases h10 : n / 10 = 0
      · have hn : n < 10 := by omega
        have hm : n % 10 = n := Nat.mod_eq_of_lt hn
        rw [digitsOf]
        simp [h10, hn, hm]
      · have hlt : n / 10 < f := by omega
        have hge : ¬ n < 10 := by omega
        rw [if_neg h10, ih (n / 10) _ hlt]
        conv_rhs => rw [digitsOf]
        simp [hge]

theorem toDigits_eq_digitsOf (n : Nat) : Nat.toDigits 10 n = digitsOf n := by
  rw [Nat.toDigits, toDigitsCore_eq_digitsOf (n + 1) n [] (by omega),
    List.append_nil]

/-- Value of a most-significant-first decimal digit string. -/
def decValue (l : List Char) : Nat :=
  l.foldl (fun a c => a * 10 + (c.toNat - 48)) 0

theorem digitChar_toNat : ∀ d, d < 10 → (Nat.digitChar d).toNat - 48 = d := by
  decide

theorem decValue_digitsOf (n : Nat) : decValue (digitsOf n) = n := by
  induction n using Nat.strong_induction_on with
  | _ n ih =>
      by_cases h : n < 10
      · rw [digitsOf]
        simp only [h, dif_pos]
        simp [decValue, digitChar_toNat n h]
      · rw [digitsOf]
        simp only [h, dif_neg, not_false_iff]
        have h1 : decValue (digitsOf (n / 10)) = n / 10 :=
          ih (n / 10) (Nat.div_lt_self (by omega) (by omega))
        simp only [decValue, List.foldl_append, List.foldl] at h1 ⊢
        rw [h1, digitChar_toNat (n % 10) (by omega)]
        omega

theorem repr_injective : Function.Injective Nat.repr := by
  intro a b h
  have h2 : Nat.toDigits 10 a = Nat.toDigits 10 b := by
    have h3 := congrArg String.data h
    simp only [Nat.repr, data_asString] at h3
    exact h3
  rw [toDigits_eq_digitsOf, toDigits_eq_digitsOf] at h2
  have h4 := congrArg decValue h2
  rwa [decValue_digitsOf, decValue_digitsOf] at h4

/-- The counter-th candidate destination
`os.path.join(folder, f"{name_base} {counter}{ext}")` of `get_safe_dest`. -/
def candName (base : String) (k : Nat) : String :=
  joinPath (dirname base)
    ((splitext (basename base)).1 ++ " " ++ Nat.repr k ++ (splitext (basename base)).2)

theorem candName_data (base : String) (k : Nat) :
    ((splitext (basename base)).1 ++ " " ++ Nat.repr k ++
        (splitext (basename base)).2).data =
      (((splitext (basename base)).1.data ++ [' ']) ++ (Nat.repr k).data) ++
        (splitext (basename base)).2.data := by
  simp [data_append]

theorem candName_injective (base : String) :
    Function.Injective (candName base) := by
  intro j k h
  have hmid : (splitext (basename base)).1 ++ " " ++ Nat.repr j ++
      (splitext (basename base)).2 =
      (splitext (basename base)).1 ++ " " ++ Nat.repr k ++
        (splitext (basename base)).2 := by
    have hhead : ∀ m : Nat, ((splitext (basename base)).1 ++ " " ++ Nat.repr m ++
        (splitext (basename base)).2).data.head? =
        some ((splitext (basename base)).1.data.head?.getD (' ')) := by
      intro m
      rw [candName_data]
      cases hp : (splitext (basename base)).1.data with
      | nil => simp
      | cons c cs => simp
    rw [candName, candName] at h
    by_cases c1 : ((splitext (basename base)).1 ++ " " ++ Nat.repr j ++
        (splitext (basename base)).2).data.head? = some ('/')
    · have c2 : ((splitext (basename base)).1 ++ " " ++ Nat.repr k ++
          (splitext (basename base)).2).data.head? = some ('/') := by
        rw [hhead k, ← hhead j]
        exact c1
      rwa [joinPath, joinPath, if_pos c1, if_pos c2] at h
    · have c2 : ¬ ((splitext (basename base)).1 ++ " " ++ Nat.repr k ++
          (splitext (basename base)).2).data.head? = some ('/') := by
        rw [hhead k, ← hhead j]
        exact c1
      rw [joinPath, joinPath, if_neg c1, if_neg c2] at h
      by_cases c3 : dirname base = ""
      · rwa [if_pos c3, if_pos c3] at h
      · rw [if_neg c3, if_neg c3] at h
        by_cases c4 : (dirname base).data.getLast? = some ('/')
        · rw [if_pos c4, if_pos c4] at h
          exact strAppend_cancel_left h
        · rw [if_neg c4, if_neg c4] at h
          exact strAppend_cancel_left h
  have h6 := congrArg String.data hmid
  rw [candName_data, candName_data] at h6
  have h7 := List.append_cancel_left (List.append_cancel_right h6)
  exact repr_injective (strDataEq h7)

theorem candName_free_exists (existing : List String) (base : String) :
    ∃ k, candName base (k + 1) ∉ existing := by
  by_contra hall
  push_neg at hall
  have hmap : ∀ i ∈ Finset.range (existing.length + 1),
      candName base (i + 1) ∈ existing.toFinset := by
    intro i _
    exact List.mem_toFinset.mpr (hall i)
  have hinj : Set.InjOn (fun i => candName base (i + 1))
      (Finset.range (existing.length + 1)) := by
    intro i _ j _ hij
    have := candName_injective base hij
    omega
  have hcard := Finset.card_le_card_of_injOn _ hmap hinj
  rw [Finset.card_range] at hcard
  have := existing.toFinset_card_le
  omega

/-- Model of `get_safe_dest(base_dest_path)`: `base` itself when free,
otherwise the first candidate with counter 1, 2, ... that is free. -/
def get_safe_dest (existing : List String) (base : String) : String :=
  if base ∈ existing then
    candName base (Nat.find (candName_free_exists existing base) + 1)
  else base

/-- C6 (confirmed): the destination chosen by `get_safe_dest` is the base
path itself when nothing exists there; it never collides with an existing
path (nothing is overwritten); on a collision it is the candidate with
the least counter `k ≥ 1` whose name is free, every smaller counter
being taken; and concretely `a.txt` next to an existing `a.txt` in the
trash becomes `a 1.txt`. -/
theorem get_safe_dest_spec (existing : List String) (base : String) :
    (base ∉ existing → get_safe_dest existing base = base)
    ∧ get_safe_dest existing base ∉ existing
    ∧ (base ∈ existing → ∃ k, 1 ≤ k
        ∧ get_safe_dest existing base = candName base k
        ∧ candName base k ∉ existing
        ∧ ∀ j, 1 ≤ j → j < k → candName base j ∈ existing)
    ∧ get_safe_dest ["/Users/u/.Trash/a.txt"] ("/Users/u/.Trash/a.txt") =
        "/Users/u/.Trash/a 1.txt" := by
  refine ⟨?_, ?_, ?_, ?_⟩
  · intro h
    rw [get_safe_dest, if_neg h]
  · by_cases hb : base ∈ existing
    · rw [get_safe_dest, if_pos hb]
      exact Nat.find_spec (candName_free_exists existing base)
    · rw [get_safe_dest, if_neg hb]
      exact hb
  · intro hb
    refine ⟨Nat.find (candName_free_exists existing base) + 1, by omega,
      by rw [get_safe_dest, if_pos hb],
      Nat.find_spec (candName_free_exists existing base), ?_⟩
    intro j h1 h2
    have hmin := Nat.find_min (candName_free_exists existing base)
      (show j - 1 < Nat.find (candName_free_exists existing base) by omega)
    have hj : j - 1 + 1 = j := by omega
    rw [hj] at hmin
    exact not_not.mp hmin
  · have h0 : Nat.find (candName_free_exists ["/Users/u/.Trash/a.txt"]
        ("/Users/u/.Trash/a.txt")) = 0 := by
      rw [Nat.find_eq_zero]
      decide
    rw [get_safe_dest, if_pos (by decide), h0]
    decide

end JmacViz
